import Mathlib

/-!
Shallow embedding of the city→IANA-timezone resolution core of
`src/adk_agent/agent.py` (functions `_normalize_city`,
`_search_timezones_by_city`, `get_current_time`).

Modelling decisions:
* Strings are processed as `List Char`; Python's single-character
  `str.replace`, `str.strip`, `str.lower`, `s.split("/")[-1]`,
  `re.sub("_+", "_", s)` and the `in` substring test are implemented
  as explicit recursive functions on `List Char`.
* The timezone catalog `available_timezones()` is a parameter
  `tzs : List String` (read-only host state).
* Whether `ZoneInfo(key)` succeeds is a parameter
  `tzValid : String → Bool`; the `try/except` blocks of the source
  become tests of this predicate.
* The wall-clock formatted time `now.strftime(...)` is a parameter
  `fmt : String → String`, applied to the key the zone was built from.
* The returned Python dict is the structure `TimeDict`; a key that is
  absent or bound to Python `None` is modelled as `Option.none`.
* Python call arguments of arbitrary type are `PyInput`: `None`,
  a string, or any other (non-string) value.
-/

/-- Characters stripped by Python `str.strip()` (ASCII whitespace). -/
def isPySpace (c : Char) : Bool :=
  c = ' ' || c = '\t' || c = '\n' || c = '\r' || c = '\x0b' || c = '\x0c'

/-- Python `s.strip()`: drop leading and trailing whitespace. -/
def stripList (l : List Char) : List Char :=
  ((l.dropWhile isPySpace).reverse.dropWhile isPySpace).reverse

/-- Python `s.replace(" ", "_").replace("-", "_")`, character by character. -/
def sepToUnderscore (c : Char) : Char :=
  if c = ' ' || c = '-' then '_' else c

/-- Python `re.sub(r"_+", "_", s)`: collapse runs of underscores. -/
def squeezeUnderscores : List Char → List Char
  | [] => []
  | [c] => [c]
  | c :: d :: rest =>
    if c = '_' && d = '_' then squeezeUnderscores (d :: rest)
    else c :: squeezeUnderscores (d :: rest)

/-- Python `c.lower()` for a single character (ASCII case). -/
def lowerChar (c : Char) : Char :=
  if 'A' ≤ c && c ≤ 'Z' then Char.ofNat (c.toNat + 32) else c

/-- Python `s.split("/")[-1]`: the substring after the last `'/'`. -/
def lastSeg : List Char → List Char
  | [] => []
  | c :: rest =>
    if c = '/' || rest.contains '/' then lastSeg rest else c :: rest

/-- Python `needle in hay` starting at the head: `hay` begins with `needle`. -/
def headHit : List Char → List Char → Bool
  | [], _ => true
  | _ :: _, [] => false
  | a :: as, b :: bs => a = b && headHit as bs

/-- Python `needle in hay`: `needle` occurs contiguously inside `hay`. -/
def subHit (needle : List Char) : List Char → Bool
  | [] => needle.isEmpty
  | b :: bs => headHit needle (b :: bs) || subHit needle bs

/-- The character list produced by `_normalize_city`: strip, map the
separators to underscores, collapse repeated underscores. -/
def normChars (s : String) : List Char :=
  squeezeUnderscores ((stripList s.toList).map sepToUnderscore)

/-- Source `_normalize_city`. -/
def normalizeCity (s : String) : String :=
  String.mk (normChars s)

/-- The exact-match test of `_search_timezones_by_city`:
`tz.split("/")[-1].lower() == norm.lower()`. -/
def exactHit (norm : List Char) (tz : String) : Bool :=
  (lastSeg tz.toList).map lowerChar = norm.map lowerChar

/-- The partial-match test of `_search_timezones_by_city`:
`norm.lower() in tz.split("/")[-1].lower()`. -/
def substrHit (norm : List Char) (tz : String) : Bool :=
  subHit (norm.map lowerChar) ((lastSeg tz.toList).map lowerChar)

/-- Source `_search_timezones_by_city`: exact pass first, and only when it
gives nothing, the partial-substring pass. -/
def searchTimezonesByCity (tzs : List String) (city : String) : List String :=
  let norm := normChars city
  let exact := tzs.filter (fun tz => exactHit norm tz)
  if exact.isEmpty then tzs.filter (fun tz => substrHit norm tz) else exact

/-- Python `<` on characters: code-point order. -/
def charLt (a b : Char) : Bool := a.toNat < b.toNat

/-- Python `<=` on character lists: lexicographic by code point. -/
def listLe : List Char → List Char → Bool
  | [], _ => true
  | _ :: _, [] => false
  | a :: as, b :: bs => if a = b then listLe as bs else charLt a b

/-- Python `<=` on strings. -/
def strLe (a b : String) : Bool := listLe a.toList b.toList

/-- Insertion into a sorted list, used to model Python `sorted`. -/
def pyInsert (a : String) : List String → List String
  | [] => [a]
  | b :: bs => if strLe a b then a :: b :: bs else b :: pyInsert a bs

/-- Python `sorted` on a list of strings (insertion sort; Python orders
strings lexicographically by code point). -/
def pySorted : List String → List String
  | [] => []
  | a :: as => pyInsert a (pySorted as)

/-- The Python dict returned by `get_current_time`.  A key that is absent
or bound to `None` is `none`. -/
structure TimeDict where
  status : String
  report : Option String
  timezone : Option String
  candidates : Option (List String)
  errorMessage : Option String
deriving Repr, DecidableEq

/-- Python argument of arbitrary type: `None`, a string, or any other value
(all non-strings are rejected identically by the input check). -/
inductive PyInput where
  | vNone : PyInput
  | vStr : String → PyInput
  | vOther : PyInput
deriving Repr, DecidableEq

/-- The dict built when `not city or not isinstance(city, str)`. -/
def validationFailure : TimeDict :=
  ⟨"error", none, none, none,
    some "Input must be a non-empty city or IANA timezone string."⟩

/-- The success dict: `report` interpolates the raw input `city`, while the
clock is read from the zone built from `tzKey` (the input itself on the
direct path, the unique candidate otherwise). -/
def successResult (fmt : String → String) (city tzKey : String) : TimeDict :=
  ⟨"success",
    some ("The current time in " ++ city ++ " is " ++ fmt tzKey),
    some tzKey, none, none⟩

/-- The dict built when no candidate matched. -/
def unresolvableFailure (city : String) : TimeDict :=
  ⟨"error", none, none, none,
    some ("Sorry, I couldn't resolve a timezone for '" ++ city ++
      "'. Try an IANA name like 'Asia/Taipei'.")⟩

/-- The dict built when several candidates matched: sorted, first 10. -/
def ambiguousResult (city : String) (candidates : List String) : TimeDict :=
  ⟨"error", none, none,
    some ((pySorted candidates).take 10),
    some ("Multiple timezones matched '" ++ city ++
      "'. Please choose one from 'candidates'.")⟩

/-- The dict built when the uniquely matched entry fails zone construction
(the source appends the exception text to this message; the model keeps the
fixed part only, no claim inspects it). -/
def constructionFailure (city tzName : String) : TimeDict :=
  ⟨"error", none, none, none,
    some ("Failed to get time for '" ++ city ++ "' via timezone '" ++
      tzName ++ "'.")⟩

/-- The city-name resolution phase of `get_current_time`: everything after
the direct IANA attempt (candidate search, zero / many / one cases). -/
def cityPhase (tzs : List String) (tzValid : String → Bool)
    (fmt : String → String) (city : String) : TimeDict :=
  let candidates := searchTimezonesByCity tzs city
  if candidates.isEmpty then unresolvableFailure city
  else if 1 < candidates.length then ambiguousResult city candidates
  else
    let tzName := candidates.headD ""
    if tzValid tzName then successResult fmt city tzName
    else constructionFailure city tzName

/-- Source `get_current_time`: input validation, direct IANA attempt for
inputs containing `'/'` (falling through on construction failure), then the
city-name phase. -/
def getCurrentTime (tzs : List String) (tzValid : String → Bool)
    (fmt : String → String) : PyInput → TimeDict
  | .vNone => validationFailure
  | .vOther => validationFailure
  | .vStr city =>
    if city = "" then validationFailure
    else if city.toList.contains '/' && tzValid city then
      successResult fmt city city
    else cityPhase tzs tzValid fmt city

/-! Helper lemmas about the character-level functions. -/

lemma toNat_ofNat_valid (n : Nat) (h : n.isValidChar) :
    (Char.ofNat n).toNat = n := by
  simp [Char.ofNat, h, Char.ofNatAux, Char.toNat, UInt32.toNat]

lemma lowerChar_eq_slash {c : Char} (h : lowerChar c = '/') : c = '/' := by
  unfold lowerChar at h
  split at h
  · next hc =>
    exfalso
    have hcb : 65 ≤ c.toNat ∧ c.toNat ≤ 90 := by
      simp [Char.le_def] at hc
      exact ⟨hc.1, hc.2⟩
    have hv : (c.toNat + 32).isValidChar := Or.inl (by omega)
    have h2 := congrArg Char.toNat h
    rw [toNat_ofNat_valid _ hv] at h2
    have h47 : ('/' : Char).toNat = 47 := by decide
    omega
  · exact h

lemma mem_dropWhile_of_neg {p : Char → Bool} {x : Char} (hx : p x = false) :
    ∀ {l : List Char}, x ∈ l → x ∈ l.dropWhile p := by
  intro l
  induction l with
  | nil => intro h; exact absurd h (List.not_mem_nil x)
  | cons a as ih =>
    intro hmem
    rw [List.dropWhile_cons]
    split
    · next hpa =>
      rcases List.mem_cons.mp hmem with rfl | hmem'
      · rw [hx] at hpa; exact absurd hpa (by simp)
      · exact ih hmem'
    · exact hmem

lemma mem_stripList {x : Char} (hx : isPySpace x = false) {l : List Char}
    (h : x ∈ l) : x ∈ stripList l := by
  unfold stripList
  rw [List.mem_reverse]
  apply mem_dropWhile_of_neg hx
  rw [List.mem_reverse]
  exact mem_dropWhile_of_neg hx h

lemma mem_squeeze : ∀ (l : List Char) {x : Char}, x ≠ '_' → x ∈ l →
    x ∈ squeezeUnderscores l
  | [], _, _, h => absurd h (List.not_mem_nil _)
  | [c], _, _, h => by simpa [squeezeUnderscores] using h
  | c :: d :: rest, x, hx, h => by
    rw [squeezeUnderscores]
    split
    · next hcd =>
      simp only [Bool.and_eq_true, decide_eq_true_eq] at hcd
      rcases List.mem_cons.mp h with rfl | h'
      · exact absurd hcd.1 hx
      · exact mem_squeeze (d :: rest) hx h'
    · next =>
      rcases List.mem_cons.mp h with rfl | h'
      · exact List.mem_cons_self _ _
      · exact List.mem_cons_of_mem _ (mem_squeeze (d :: rest) hx h')

lemma no_slash_lastSeg : ∀ (l : List Char), '/' ∉ lastSeg l
  | [] => by simp [lastSeg]
  | c :: rest => by
    rw [lastSeg]
    split
    · exact no_slash_lastSeg rest
    · next hcond =>
      intro hmem
      simp only [Bool.or_eq_true, decide_eq_true_eq, not_or] at hcond
      rcases List.mem_cons.mp hmem with rfl | h'
      · exact hcond.1 rfl
      · have : rest.contains '/' = true := by
          simpa using h'
        rw [this] at hcond
        exact absurd rfl hcond.2

lemma mem_of_headHit : ∀ {n h : List Char}, headHit n h = true →
    ∀ {x : Char}, x ∈ n → x ∈ h
  | [], _, _, _, hx => absurd hx (List.not_mem_nil _)
  | _ :: _, [], hh, _, _ => by rw [headHit] at hh; exact absurd hh (by simp)
  | a :: as, b :: bs, hh, x, hx => by
    rw [headHit] at hh
    simp only [Bool.and_eq_true, decide_eq_true_eq] at hh
    rcases List.mem_cons.mp hx with rfl | hx'
    · exact hh.1 ▸ List.mem_cons_self _ _
    · exact List.mem_cons_of_mem _ (mem_of_headHit hh.2 hx')

lemma mem_of_subHit : ∀ {h n : List Char}, subHit n h = true →
    ∀ {x : Char}, x ∈ n → x ∈ h
  | [], n, hs, x, hx => by
    rw [subHit] at hs
    rw [List.isEmpty_iff] at hs
    subst hs
    exact absurd hx (List.not_mem_nil _)
  | b :: bs, n, hs, x, hx => by
    rw [subHit] at hs
    simp only [Bool.or_eq_true] at hs
    rcases hs with h1 | h2
    · exact mem_of_headHit h1 hx
    · exact List.mem_cons_of_mem _ (mem_of_subHit h2 hx)

lemma slash_mem_normChars {q : String} (h : q.toList.contains '/' = true) :
    '/' ∈ normChars q := by
  have h0 : '/' ∈ q.toList := by simpa using h
  unfold normChars
  apply mem_squeeze _ (by decide)
  have h1 : '/' ∈ stripList q.toList := mem_stripList (by decide) h0
  have h2 : sepToUnderscore '/' = '/' := by decide
  exact h2 ▸ List.mem_map_of_mem _ h1

/-- A query containing a slash can match nothing: the normalized query
keeps the slash, while no final path segment contains one, so both the
exact pass and the partial pass come back empty. -/
lemma search_slash_nil (tzs : List String) {q : String}
    (h : q.toList.contains '/' = true) : searchTimezonesByCity tzs q = [] := by
  have hn : '/' ∈ normChars q := slash_mem_normChars h
  have hnl : '/' ∈ (normChars q).map lowerChar := by
    have hl : lowerChar '/' = '/' := by decide
    exact hl ▸ List.mem_map_of_mem _ hn
  have hseg : ∀ tz : String, '/' ∉ (lastSeg tz.toList).map lowerChar := by
    intro tz hmem
    rcases List.mem_map.mp hmem with ⟨c, hc, hlc⟩
    exact no_slash_lastSeg tz.toList (lowerChar_eq_slash hlc ▸ hc)
  have hex : ∀ tz ∈ tzs, ¬ exactHit (normChars q) tz = true := by
    intro tz _ hb
    simp only [exactHit, decide_eq_true_eq] at hb
    exact hseg tz (hb ▸ hnl)
  have hpa : ∀ tz ∈ tzs, ¬ substrHit (normChars q) tz = true := by
    intro tz _ hb
    exact hseg tz (mem_of_subHit hb hnl)
  have he : List.filter (fun tz => exactHit (normChars q) tz) tzs = [] :=
    List.filter_eq_nil_iff.mpr hex
  have hp : List.filter (fun tz => substrHit (normChars q) tz) tzs = [] :=
    List.filter_eq_nil_iff.mpr hpa
  simp only [searchTimezonesByCity, he, hp, List.isEmpty_nil, if_true]

/-- Invalid call arguments in the sense of the source's
`not city or not isinstance(city, str)` test: `None`, any non-string
value, or the empty string. -/
def invalidInput : PyInput → Bool
  | .vNone => true
  | .vOther => true
  | .vStr s => s = ""

/-- Shape every returned dict satisfies: a success carries a report and a
timezone and no error message; an error carries an error message and no
report or timezone. -/
def wellFormedResult (d : TimeDict) : Bool :=
  (d.status = "success" && d.report.isSome && d.timezone.isSome
    && d.errorMessage.isNone)
  || (d.status = "error" && d.errorMessage.isSome && d.report.isNone
    && d.timezone.isNone)

/-! Concrete fixtures used by witnesses and counterexamples. -/

/-- A small catalog of real IANA identifiers (note that real hosts carry
both "UTC" and "Etc/UTC"). -/
def catW : List String := ["America/New_York", "Asia/Taipei", "Etc/UTC", "UTC"]

/-- Zone construction succeeding exactly on the catalog entries. -/
def validW (s : String) : Bool := catW.contains s

/-- A fixed formatted-clock stub. -/
def fmtW (_ : String) : String := "2025-01-01 00:00:00 XXX+0000"

/-- A two-entry catalog of real IANA identifiers. -/
def catP : List String := ["America/New_York", "Asia/Taipei"]

example : normalizeCity "  New  York - city " = "New_York_city" := by decide
example : searchTimezonesByCity ["Asia/Taipei", "America/New_York"] "Taipei"
    = ["Asia/Taipei"] := by decide
example : searchTimezonesByCity ["Asia/Taipei", "America/New_York"] "york"
    = ["America/New_York"] := by decide
example :
    getCurrentTime ["Asia/Taipei"] (fun _ => true) (fun _ => "T")
      (.vStr "Asia/Taipei")
    = successResult (fun _ => "T") "Asia/Taipei" "Asia/Taipei" := by decide

/-! Further shared lemmas about the branch structure of `getCurrentTime`. -/

lemma ne_empty_of_slash {q : String} (hs : q.toList.contains '/' = true) :
    q ≠ "" := by
  intro h0
  subst h0
  simp at hs

lemma getCurrentTime_direct (tzs : List String) (tzValid : String → Bool)
    (fmt : String → String) {q : String}
    (hs : q.toList.contains '/' = true) (hv : tzValid q = true) :
    getCurrentTime tzs tzValid fmt (.vStr q) = successResult fmt q q := by
  have hne := ne_empty_of_slash hs
  have hcond : (q.toList.contains '/' && tzValid q) = true := by
    rw [hs, hv]
    rfl
  simp only [getCurrentTime, if_neg hne, hcond, if_true]

lemma getCurrentTime_not_direct {tzs : List String} {tzValid : String → Bool}
    {fmt : String → String} {q : String} (hq : q ≠ "")
    (hc : (q.toList.contains '/' && tzValid q) = false) :
    getCurrentTime tzs tzValid fmt (.vStr q) = cityPhase tzs tzValid fmt q := by
  simp only [getCurrentTime, if_neg hq, hc, Bool.false_eq_true, if_false]

lemma cityPhase_ambiguous {tzs : List String} {tzValid : String → Bool}
    {fmt : String → String} {q : String}
    (h2 : 2 ≤ (searchTimezonesByCity tzs q).length) :
    cityPhase tzs tzValid fmt q
      = ambiguousResult q (searchTimezonesByCity tzs q) := by
  have hne : (searchTimezonesByCity tzs q).isEmpty = false := by
    rw [List.isEmpty_eq_false]
    intro h0
    rw [h0] at h2
    simp at h2
  have hlt : 1 < (searchTimezonesByCity tzs q).length := h2
  simp only [cityPhase, hne, Bool.false_eq_true, if_false, hlt, if_true]

lemma cityPhase_empty {tzs : List String} {tzValid : String → Bool}
    {fmt : String → String} {q : String}
    (h0 : searchTimezonesByCity tzs q = []) :
    cityPhase tzs tzValid fmt q = unresolvableFailure q := by
  simp only [cityPhase, h0, List.isEmpty_nil, if_true]

lemma subHit_nil_left : ∀ (h : List Char), subHit [] h = true
  | [] => rfl
  | _ :: _ => rfl

/-- The search depends on the normalized query only through its
lower-cased form, because both match passes lower-case it first. -/
lemma search_congr_lower (tzs : List String) {q1 q2 : String}
    (h : (normChars q1).map lowerChar = (normChars q2).map lowerChar) :
    searchTimezonesByCity tzs q1 = searchTimezonesByCity tzs q2 := by
  have hef : tzs.filter (fun tz => exactHit (normChars q1) tz)
      = tzs.filter (fun tz => exactHit (normChars q2) tz) :=
    List.filter_congr (by
      intro a _
      simp only [exactHit, h])
  have hpf : tzs.filter (fun tz => substrHit (normChars q1) tz)
      = tzs.filter (fun tz => substrHit (normChars q2) tz) :=
    List.filter_congr (by
      intro a _
      simp only [substrHit, h])
  simp only [searchTimezonesByCity, hef, hpf]

lemma charLt_or {a b : Char} (h : a ≠ b) :
    charLt a b = true ∨ charLt b a = true := by
  have hne : a.toNat ≠ b.toNat :=
    fun hn => h (Char.eq_of_val_eq (UInt32.ext hn))
  simp only [charLt, decide_eq_true_eq]
  omega

lemma charLt_trans {a b c : Char} (h1 : charLt a b = true)
    (h2 : charLt b c = true) : charLt a c = true := by
  simp only [charLt, decide_eq_true_eq] at h1 h2 ⊢
  omega

lemma charLt_asymm {a b : Char} (h1 : charLt a b = true) :
    charLt b a = false := by
  simp only [charLt, decide_eq_true_eq] at h1
  simp only [charLt, decide_eq_false_iff_not]
  omega

lemma listLe_total : ∀ (a b : List Char), listLe a b = true ∨ listLe b a = true
  | [], _ => Or.inl rfl
  | _ :: _, [] => Or.inr rfl
  | a :: as, b :: bs => by
    by_cases hab : a = b
    · subst hab
      rw [listLe, listLe, if_pos rfl, if_pos rfl]
      exact listLe_total as bs
    · rw [listLe, listLe, if_neg hab, if_neg (Ne.symm hab)]
      exact charLt_or hab

lemma listLe_trans : ∀ {a b c : List Char}, listLe a b = true →
    listLe b c = true → listLe a c = true
  | [], _, _, _, _ => rfl
  | _ :: _, [], _, h1, _ => by
    rw [listLe] at h1
    exact absurd h1 (by decide)
  | _ :: _, _ :: _, [], _, h2 => by
    rw [listLe] at h2
    exact absurd h2 (by decide)
  | a :: as, b :: bs, c :: cs, h1, h2 => by
    rw [listLe] at h1 h2 ⊢
    by_cases hab : a = b
    · subst hab
      rw [if_pos rfl] at h1
      by_cases hac : a = c
      · subst hac
        rw [if_pos rfl] at h2
        rw [if_pos rfl]
        exact listLe_trans h1 h2
      · rw [if_neg hac] at h2
        rw [if_neg hac]
        exact h2
    · rw [if_neg hab] at h1
      by_cases hbc : b = c
      · subst hbc
        rw [if_neg hab]
        exact h1
      · rw [if_neg hbc] at h2
        by_cases hac : a = c
        · subst hac
          exfalso
          rw [charLt_asymm h1] at h2
          exact Bool.false_ne_true h2
        · rw [if_neg hac]
          exact charLt_trans h1 h2

lemma strLe_total (a b : String) : strLe a b = true ∨ strLe b a = true :=
  listLe_total _ _

lemma strLe_trans {a b c : String} (h1 : strLe a b = true)
    (h2 : strLe b c = true) : strLe a c = true :=
  listLe_trans h1 h2

lemma mem_pyInsert (a x : String) : ∀ (l : List String),
    x ∈ pyInsert a l ↔ x = a ∨ x ∈ l
  | [] => by simp [pyInsert]
  | b :: bs => by
    rw [pyInsert]
    split
    · exact List.mem_cons.trans (by rw [List.mem_cons])
    · rw [List.mem_cons, mem_pyInsert a x bs, List.mem_cons]
      tauto

lemma sorted_pyInsert (a : String) : ∀ (l : List String),
    l.Pairwise (fun x y => strLe x y = true) →
    (pyInsert a l).Pairwise (fun x y => strLe x y = true)
  | [], _ => by simp [pyInsert]
  | b :: bs, h => by
    rw [pyInsert]
    have hp := List.pairwise_cons.mp h
    split
    · next hab =>
      rw [List.pairwise_cons]
      refine ⟨?_, h⟩
      intro y hy
      rcases List.mem_cons.mp hy with rfl | hy'
      · exact hab
      · exact strLe_trans hab (hp.1 y hy')
    · next hab =>
      have hba : strLe b a = true := by
        rcases strLe_total a b with h1 | h1
        · exact absurd h1 hab
        · exact h1
      rw [List.pairwise_cons]
      refine ⟨?_, sorted_pyInsert a bs hp.2⟩
      intro y hy
      rcases (mem_pyInsert a y bs).mp hy with rfl | hy'
      · exact hba
      · exact hp.1 y hy'

/-- The output of the modelled Python `sorted` is sorted under the modelled
Python string order. -/
lemma sorted_pySorted : ∀ (l : List String),
    (pySorted l).Pairwise (fun x y => strLe x y = true)
  | [] => List.Pairwise.nil
  | a :: as => sorted_pyInsert a (pySorted as) (sorted_pySorted as)

lemma length_pyInsert (a : String) : ∀ (l : List String),
    (pyInsert a l).length = l.length + 1
  | [] => rfl
  | b :: bs => by
    rw [pyInsert]
    split
    · rfl
    · simp [length_pyInsert a bs]

lemma length_pySorted : ∀ (l : List String), (pySorted l).length = l.length
  | [] => rfl
  | a :: as => by
    rw [pySorted, length_pyInsert, length_pySorted as]
    rfl

lemma normChars_eq_nil_of_space {q : String}
    (hws : ∀ c ∈ q.toList, isPySpace c = true) : normChars q = [] := by
  have h1 : q.toList.dropWhile isPySpace = [] :=
    List.dropWhile_eq_nil_iff.mpr hws
  unfold normChars stripList
  rw [h1]
  rfl

/-! Claim theorems. -/

/-- C1 counterexample: real hosts list both "UTC" and "Etc/UTC" in
`available_timezones()`; on such a catalog the member "UTC" (no slash) is
answered by the city passes with two exact matches, so the call returns an
error with candidates, not Success. -/
theorem c1_counterexample :
    "UTC" ∈ catW ∧
    (getCurrentTime catW validW fmtW (.vStr "UTC")).status = "error" ∧
    (getCurrentTime catW validW fmtW (.vStr "UTC")).candidates
      = some ["Etc/UTC", "UTC"] := by decide

/-- C1 amended: every catalog identifier that contains a '/' and whose
zone construction succeeds is resolved directly: the call returns Success
with the timezone field equal to the identifier itself. -/
theorem c1_direct_success (tzs : List String) (tzValid : String → Bool)
    (fmt : String → String) (z : String) (_hmem : z ∈ tzs)
    (hs : z.toList.contains '/' = true) (hv : tzValid z = true) :
    (getCurrentTime tzs tzValid fmt (.vStr z)).status = "success" ∧
    (getCurrentTime tzs tzValid fmt (.vStr z)).timezone = some z := by
  rw [getCurrentTime_direct tzs tzValid fmt hs hv]
  exact ⟨rfl, rfl⟩

/-- Witness for the amended C1 at the catalog member "Asia/Taipei". -/
theorem c1_direct_success_witness :
    (getCurrentTime catW validW fmtW (.vStr "Asia/Taipei")).status
        = "success" ∧
    (getCurrentTime catW validW fmtW (.vStr "Asia/Taipei")).timezone
        = some "Asia/Taipei" :=
  c1_direct_success catW validW fmtW "Asia/Taipei" (by decide) (by decide)
    (by decide)

/-- C2: whenever some catalog entry's final path segment equals the
normalized query case-insensitively, the candidate set is exactly the set
of those exact matches; the partial-substring pass determines the
candidate set only when no exact match exists. -/
theorem c2_candidate_set (tzs : List String) (q tz : String) :
    ((∃ t ∈ tzs, exactHit (normChars q) t = true) →
      (tz ∈ searchTimezonesByCity tzs q ↔
        tz ∈ tzs ∧ exactHit (normChars q) tz = true)) ∧
    ((∀ t ∈ tzs, exactHit (normChars q) t = false) →
      (tz ∈ searchTimezonesByCity tzs q ↔
        tz ∈ tzs ∧ substrHit (normChars q) tz = true)) := by
  constructor
  · rintro ⟨t, ht, hhit⟩
    have hne : (List.filter (fun tz => exactHit (normChars q) tz) tzs).isEmpty
        = false := by
      rw [List.isEmpty_eq_false]
      intro h0
      exact (List.filter_eq_nil_iff.mp h0 t ht) hhit
    simp only [searchTimezonesByCity, hne, Bool.false_eq_true, if_false,
      List.mem_filter]
  · intro hall
    have hnil : List.filter (fun tz => exactHit (normChars q) tz) tzs = [] :=
      List.filter_eq_nil_iff.mpr (by
        intro t ht
        rw [hall t ht]
        exact Bool.false_ne_true)
    simp only [searchTimezonesByCity, hnil, List.isEmpty_nil, if_true,
      List.mem_filter]

/-- Witness for C2 at a concrete catalog and query: "Taipei" has an exact
match, and the candidate set membership is exactly the exact-match test. -/
theorem c2_candidate_set_witness :
    "Asia/Taipei" ∈ searchTimezonesByCity catW "Taipei" :=
  ((c2_candidate_set catW "Taipei" "Asia/Taipei").1
    ⟨"Asia/Taipei", by decide, by decide⟩).mpr ⟨by decide, by decide⟩

/-- C4: a query containing a slash is first tried directly: when zone
construction succeeds the call returns Success with the timezone field the
input string unchanged; when it fails the call falls through to the
city-name resolution phase instead of failing immediately. -/
theorem c4_direct_path (tzs : List String) (tzValid : String → Bool)
    (fmt : String → String) (q : String)
    (hs : q.toList.contains '/' = true) :
    (tzValid q = true →
      getCurrentTime tzs tzValid fmt (.vStr q) = successResult fmt q q ∧
      (successResult fmt q q).status = "success" ∧
      (successResult fmt q q).timezone = some q) ∧
    (tzValid q = false →
      getCurrentTime tzs tzValid fmt (.vStr q) = cityPhase tzs tzValid fmt q) := by
  have hne : q ≠ "" := by
    intro h0
    subst h0
    simp at hs
  constructor
  · intro hv
    exact ⟨getCurrentTime_direct tzs tzValid fmt hs hv, rfl, rfl⟩
  · intro hv
    have hcond : (q.toList.contains '/' && tzValid q) = false := by
      rw [hv, Bool.and_false]
    exact getCurrentTime_not_direct hne hcond

/-- Witness for C4: "Asia/Taipei" is constructible and resolves directly;
"Bad/Zone" is not constructible and falls through to the city phase. -/
theorem c4_direct_path_witness :
    getCurrentTime catW validW fmtW (.vStr "Asia/Taipei")
        = successResult fmtW "Asia/Taipei" "Asia/Taipei" ∧
    getCurrentTime catW validW fmtW (.vStr "Bad/Zone")
        = cityPhase catW validW fmtW "Bad/Zone" :=
  ⟨((c4_direct_path catW validW fmtW "Asia/Taipei" (by decide)).1
      (by decide)).1,
    (c4_direct_path catW validW fmtW "Bad/Zone" (by decide)).2 (by decide)⟩

/-- C6: an input that is `None`, a non-string, or the empty string is
rejected immediately with the input-validation failure, and the outcome
does not depend on the catalog, the zone-construction behaviour or the
clock. -/
theorem c6_invalid_input (tzs tzs' : List String) (v v' : String → Bool)
    (f f' : String → String) (input : PyInput)
    (h : invalidInput input = true) :
    getCurrentTime tzs v f input = validationFailure ∧
    getCurrentTime tzs v f input = getCurrentTime tzs' v' f' input := by
  cases input with
  | vNone => exact ⟨rfl, rfl⟩
  | vOther => exact ⟨rfl, rfl⟩
  | vStr s =>
    have hs : s = "" := by simpa [invalidInput] using h
    subst hs
    constructor <;> simp [getCurrentTime]

/-- Witness for C6 at the three concrete invalid inputs, with two unrelated
parameter sets. -/
theorem c6_invalid_input_witness :
    getCurrentTime catW validW fmtW (.vStr "") = validationFailure ∧
    getCurrentTime catW validW fmtW .vNone
      = getCurrentTime [] (fun _ => true) (fun _ => "t") .vNone ∧
    getCurrentTime catW validW fmtW .vOther = validationFailure :=
  ⟨(c6_invalid_input catW catW validW validW fmtW fmtW (.vStr "")
      (by decide)).1,
    (c6_invalid_input catW [] validW (fun _ => true) fmtW (fun _ => "t")
      .vNone (by decide)).2,
    (c6_invalid_input catW catW validW validW fmtW fmtW .vOther
      (by decide)).1⟩

/-- C8: every call returns a well-formed structured result with status
"success" or "error" — all failure modes, including zone-construction
failure on a uniquely matched entry, are returned as data (the source's
try/except recovery is modelled by total branching on `tzValid`). -/
theorem c8_total_safety (tzs : List String) (v : String → Bool)
    (f : String → String) (input : PyInput) :
    ((getCurrentTime tzs v f input).status = "success" ∨
      (getCurrentTime tzs v f input).status = "error") ∧
    wellFormedResult (getCurrentTime tzs v f input) = true := by
  cases input with
  | vNone => exact ⟨Or.inr rfl, rfl⟩
  | vOther => exact ⟨Or.inr rfl, rfl⟩
  | vStr s =>
    rw [getCurrentTime]
    split
    · exact ⟨Or.inr rfl, rfl⟩
    · split
      · exact ⟨Or.inl rfl, rfl⟩
      · simp only [cityPhase]
        split
        · exact ⟨Or.inr rfl, rfl⟩
        · split
          · exact ⟨Or.inr rfl, rfl⟩
          · split
            · exact ⟨Or.inl rfl, rfl⟩
            · exact ⟨Or.inr rfl, rfl⟩

/-- C3 counterexample: the empty query has a candidate set with two or
more members (the partial pass matches everything), yet the call returns
the input-validation failure, not an Ambiguous result. -/
theorem c3_counterexample :
    2 ≤ (searchTimezonesByCity catW "").length ∧
    (getCurrentTime catW validW fmtW (.vStr "")).candidates = none ∧
    getCurrentTime catW validW fmtW (.vStr "") = validationFailure := by
  decide

/-- C3 amended: for every non-empty string query whose candidate set has
two or more members, the call returns an Ambiguous result (an error dict
carrying a candidates list) sorted ascending in the Python string order
and of length at most 10. -/
theorem c3_ambiguous_sorted_capped (tzs : List String)
    (tzValid : String → Bool) (fmt : String → String) (q : String)
    (hq : q ≠ "") (h2 : 2 ≤ (searchTimezonesByCity tzs q).length) :
    ∃ cs : List String,
      (getCurrentTime tzs tzValid fmt (.vStr q)).status = "error" ∧
      (getCurrentTime tzs tzValid fmt (.vStr q)).candidates = some cs ∧
      cs.Pairwise (fun a b => strLe a b = true) ∧ cs.length ≤ 10 := by
  have hc : (q.toList.contains '/' && tzValid q) = false := by
    cases hcc : q.toList.contains '/' with
    | false => rw [Bool.false_and]
    | true =>
      exfalso
      rw [search_slash_nil tzs hcc] at h2
      simp at h2
  rw [getCurrentTime_not_direct hq hc, cityPhase_ambiguous h2]
  refine ⟨(pySorted (searchTimezonesByCity tzs q)).take 10, rfl, rfl, ?_, ?_⟩
  · exact List.Pairwise.sublist (List.take_sublist _ _) (sorted_pySorted _)
  · rw [List.length_take]
    exact min_le_left _ _

/-- Witness for the amended C3: "UTC" matches two entries of the concrete
catalog and comes back Ambiguous. -/
theorem c3_ambiguous_sorted_capped_witness :
    ∃ cs : List String,
      (getCurrentTime catW validW fmtW (.vStr "UTC")).status = "error" ∧
      (getCurrentTime catW validW fmtW (.vStr "UTC")).candidates = some cs ∧
      cs.Pairwise (fun a b => strLe a b = true) ∧ cs.length ≤ 10 :=
  c3_ambiguous_sorted_capped catW validW fmtW "UTC" (by decide) (by decide)

/-- C5: the candidate set depends only on the lower-cased normalized query,
so queries differing by surrounding whitespace, space/hyphen/underscore
separators, repeated separators, or letter case give the same candidate
set; in particular "New York", "new_york" and "New-York" coincide on every
catalog. -/
theorem c5_normalization_invariance (tzs : List String) (q1 q2 : String)
    (h : (normChars q1).map lowerChar = (normChars q2).map lowerChar) :
    searchTimezonesByCity tzs q1 = searchTimezonesByCity tzs q2 ∧
    searchTimezonesByCity tzs "New York"
      = searchTimezonesByCity tzs "new_york" ∧
    searchTimezonesByCity tzs "New-York"
      = searchTimezonesByCity tzs "new_york" :=
  ⟨search_congr_lower tzs h, search_congr_lower tzs (by decide),
    search_congr_lower tzs (by decide)⟩

/-- Witness for C5 on a concrete catalog: extra whitespace, a hyphen and
case changes do not change the candidate set. -/
theorem c5_normalization_invariance_witness :
    searchTimezonesByCity catW "  New York "
      = searchTimezonesByCity catW "new-york" :=
  (c5_normalization_invariance catW "  New York " "new-york" (by decide)).1

/-- C7: a non-empty query with an empty candidate set (whose direct zone
construction, when it contains '/', failed) gets the unresolvable-name
failure, which differs from the input-validation failure. -/
theorem c7_unresolvable (tzs : List String) (tzValid : String → Bool)
    (fmt : String → String) (q : String) (hq : q ≠ "")
    (hemp : searchTimezonesByCity tzs q = [])
    (hv : q.toList.contains '/' = true → tzValid q = false) :
    getCurrentTime tzs tzValid fmt (.vStr q) = unresolvableFailure q ∧
    unresolvableFailure q ≠ validationFailure := by
  constructor
  · have hc : (q.toList.contains '/' && tzValid q) = false := by
      cases hcc : q.toList.contains '/' with
      | false => rw [Bool.false_and]
      | true => rw [hv hcc, Bool.and_false]
    rw [getCurrentTime_not_direct hq hc]
    exact cityPhase_empty hemp
  · intro h0
    have h1 := congrArg TimeDict.errorMessage h0
    simp only [unresolvableFailure, validationFailure, Option.some.injEq]
      at h1
    have h2 := congrArg String.data h1
    rw [String.data_append, String.data_append] at h2
    have ha : ("Sorry, I couldn't resolve a timezone for '" : String).data
        = 'S' :: ("orry, I couldn't resolve a timezone for '" : String).data :=
      rfl
    have hb : ("Input must be a non-empty city or IANA timezone string."
          : String).data
        = 'I' :: ("nput must be a non-empty city or IANA timezone string."
          : String).data := rfl
    rw [ha, hb] at h2
    simp at h2

/-- Witness for C7 at the spec's example "Nonexistent_Place_Zzz". -/
theorem c7_unresolvable_witness :
    getCurrentTime catW validW fmtW (.vStr "Nonexistent_Place_Zzz")
      = unresolvableFailure "Nonexistent_Place_Zzz" ∧
    unresolvableFailure "Nonexistent_Place_Zzz" ≠ validationFailure :=
  c7_unresolvable catW validW fmtW "Nonexistent_Place_Zzz" (by decide)
    (by decide) (by decide)

/-- C9: a query containing '/' whose direct zone construction fails always
ends in the unresolvable-name failure — never Success or Ambiguous —
because the normalized query keeps the slash and no final path segment
contains one. -/
theorem c9_slash_fallthrough_unresolvable (tzs : List String)
    (tzValid : String → Bool) (fmt : String → String) (q : String)
    (hs : q.toList.contains '/' = true) (hv : tzValid q = false) :
    getCurrentTime tzs tzValid fmt (.vStr q) = unresolvableFailure q := by
  have hc : (q.toList.contains '/' && tzValid q) = false := by
    rw [hv, Bool.and_false]
  rw [getCurrentTime_not_direct (ne_empty_of_slash hs) hc]
  exact cityPhase_empty (search_slash_nil tzs hs)

/-- Witness for C9: "Bad/Zone" is not constructible on the concrete host
and resolves to the unresolvable-name failure. -/
theorem c9_slash_fallthrough_unresolvable_witness :
    getCurrentTime catW validW fmtW (.vStr "Bad/Zone")
      = unresolvableFailure "Bad/Zone" :=
  c9_slash_fallthrough_unresolvable catW validW fmtW "Bad/Zone" (by decide)
    (by decide)

/-- C10 counterexample: on a two-entry catalog the whitespace-only query
"   " is not validation-rejected and comes back Ambiguous, but with 2
candidates, not the 10 the claim states. -/
theorem c10_counterexample :
    2 ≤ catP.length ∧
    getCurrentTime catP validW fmtW (.vStr "   ")
      = ambiguousResult "   " ["America/New_York", "Asia/Taipei"] ∧
    (getCurrentTime catP validW fmtW (.vStr "   ")).candidates
      = some ["America/New_York", "Asia/Taipei"] ∧
    ((getCurrentTime catP validW fmtW (.vStr "   ")).candidates.getD
      []).length = 2 := by
  decide

/-- C10 amended: a non-empty whitespace-only query passes validation,
normalizes to the empty string, matches every catalog entry in the partial
pass (given that every entry has a non-empty final segment), and on a
catalog with at least two entries comes back Ambiguous with
min(10, catalog size) sorted candidates. -/
theorem c10_whitespace_ambiguous (tzs : List String)
    (tzValid : String → Bool) (fmt : String → String) (q : String)
    (hq : q ≠ "") (hws : ∀ c ∈ q.toList, isPySpace c = true)
    (hseg : ∀ tz ∈ tzs, lastSeg tz.toList ≠ [])
    (h2 : 2 ≤ tzs.length) :
    getCurrentTime tzs tzValid fmt (.vStr q) ≠ validationFailure ∧
    normChars q = [] ∧
    searchTimezonesByCity tzs q = tzs ∧
    ∃ cs : List String,
      (getCurrentTime tzs tzValid fmt (.vStr q)).candidates = some cs ∧
      cs.Pairwise (fun a b => strLe a b = true) ∧
      cs.length = min 10 tzs.length := by
  have hnorm : normChars q = [] := normChars_eq_nil_of_space hws
  have hnoslash : q.toList.contains '/' = false := by
    by_contra hb
    rw [Bool.not_eq_false] at hb
    have hmem : '/' ∈ q.toList := by simpa using hb
    exact absurd (hws '/' hmem) (by decide)
  have hc : (q.toList.contains '/' && tzValid q) = false := by
    rw [hnoslash, Bool.false_and]
  have hex : tzs.filter (fun tz => exactHit (normChars q) tz) = [] := by
    apply List.filter_eq_nil_iff.mpr
    intro tz htz hb
    rw [hnorm] at hb
    simp only [exactHit, List.map_nil, decide_eq_true_eq] at hb
    rw [List.map_eq_nil_iff] at hb
    exact hseg tz htz hb
  have hpa : tzs.filter (fun tz => substrHit (normChars q) tz) = tzs := by
    apply List.filter_eq_self.mpr
    intro tz _
    rw [hnorm]
    simp only [substrHit, List.map_nil]
    exact subHit_nil_left _
  have hsearch : searchTimezonesByCity tzs q = tzs := by
    simp only [searchTimezonesByCity, hex, List.isEmpty_nil, if_true, hpa]
  have h2' : 2 ≤ (searchTimezonesByCity tzs q).length := by
    rw [hsearch]
    exact h2
  have hres : getCurrentTime tzs tzValid fmt (.vStr q)
      = ambiguousResult q (searchTimezonesByCity tzs q) := by
    rw [getCurrentTime_not_direct hq hc, cityPhase_ambiguous h2']
  refine ⟨?_, hnorm, hsearch, ?_⟩
  · rw [hres]
    intro heq
    have hcand := congrArg TimeDict.candidates heq
    simp [ambiguousResult, validationFailure] at hcand
  · refine ⟨(pySorted (searchTimezonesByCity tzs q)).take 10, ?_, ?_, ?_⟩
    · rw [hres]
      rfl
    · exact List.Pairwise.sublist (List.take_sublist _ _) (sorted_pySorted _)
    · rw [List.length_take, length_pySorted, hsearch]

/-- Witness for the amended C10 on the two-entry catalog with the
single-space query. -/
theorem c10_whitespace_ambiguous_witness :
    getCurrentTime catP validW fmtW (.vStr " ") ≠ validationFailure ∧
    normChars " " = [] ∧
    searchTimezonesByCity catP " " = catP ∧
    ∃ cs : List String,
      (getCurrentTime catP validW fmtW (.vStr " ")).candidates = some cs ∧
      cs.Pairwise (fun a b => strLe a b = true) ∧
      cs.length = min 10 catP.length :=
  c10_whitespace_ambiguous catP validW fmtW " " (by decide) (by decide)
    (by decide) (by decide)
